import Mathlib

/-!
Verification of the computational core of `mandel.py` (Mandelbrot renderer).

The embedding models the arithmetic exactly over the rationals: a complex
number is a pair of rationals, and the escape test `abs(z) > 2` of the
source is rendered as `4 < normSq z`, which defines the identical escape
boundary (the magnitude of `z` exceeds 2 iff its squared magnitude exceeds 4,
a reformulation the design text itself permits).
-/

/-- A complex number as a pair of rational coordinates. -/
structure QComplex where
  re : ℚ
  im : ℚ
deriving DecidableEq

/-- Complex addition. -/
def QComplex.add (w z : QComplex) : QComplex :=
  ⟨w.re + z.re, w.im + z.im⟩

/-- Complex multiplication. -/
def QComplex.mul (w z : QComplex) : QComplex :=
  ⟨w.re * z.re - w.im * z.im, w.re * z.im + w.im * z.re⟩

/-- Squared magnitude; `4 < normSq z` is the escape test `abs(z) > 2`. -/
def QComplex.normSq (z : QComplex) : ℚ :=
  z.re * z.re + z.im * z.im

/-- The escape-time loop of `mandelbrot` in the source:
`for n in range(max_iter): if abs(z) > 2: return n; z = z**2 + c`.
`fuel` counts the remaining loop turns and `n` the turns already taken;
when the fuel is exhausted the source falls through to `return max_iter`,
which here is the accumulated `n`. -/
def mandelbrotAux (c z : QComplex) (n fuel : ℕ) : ℕ :=
  match fuel with
  | 0 => n
  | Nat.succ f =>
    if 4 < z.normSq then n
    else mandelbrotAux c ((z.mul z).add c) (n + 1) f

/-- `mandelbrot(c, max_iter)` of the source: run the escape-time loop from
`z = 0` with `max_iter` turns of fuel. -/
def mandelbrot (c : QComplex) (max_iter : ℕ) : ℕ :=
  mandelbrotAux c ⟨0, 0⟩ 0 max_iter

/-- `compute_row(i, real, imag, max_iter, width)` of the source: one grid row,
`row[j] = mandelbrot(real[j] + 1j * imag[i], max_iter)` for `j < width`.
Indexing is total here via `getD`; every call site supplies `j < real.length`
and `i < imag.length`, so the default is never consulted. -/
def compute_row (i : ℕ) (real imag : List ℚ) (max_iter width : ℕ) : List ℕ :=
  (List.range width).map (fun j => mandelbrot ⟨real.getD j 0, imag.getD i 0⟩ max_iter)

/-- `np.linspace(a, b, num)` over exact rationals: `num` evenly spaced samples
from `a` to `b` inclusive; one sample gives `[a]`, zero samples give `[]`.
For `num ≥ 2` the step is `(b - a) / (num - 1)`. -/
def linspace (a b : ℚ) : ℕ → List ℚ
  | 0 => []
  | 1 => [a]
  | (n + 2) => (List.range (n + 2)).map (fun (k : ℕ) => a + (k : ℚ) * ((b - a) / ((n : ℚ) + 1)))

/-- `generate_mandelbrot` of the source: sample the axes with `linspace` and
map `compute_row` over the row indices.  The source distributes the rows over
a pool with `executor.map`, which returns the results in argument order, so
the grid is the order-preserving map modelled here. -/
def generate_mandelbrot (xmin xmax ymin ymax : ℚ) (width height max_iter : ℕ) : List (List ℕ) :=
  let real := linspace xmin xmax width
  let imag := linspace ymin ymax height
  (List.range height).map (fun i => compute_row i real imag max_iter width)

/-- Spec-side reference sample (refinement counterpart of `linspace`), written
from the design text: `num` evenly spaced samples over `[a, b]` inclusive of
both endpoints, `num - 1` intervals when `num > 1`, a single-point case uses
`a`; sample `k` is `a + k * (b - a) / (num - 1)`. -/
def specSample (a b : ℚ) (num k : ℕ) : ℚ :=
  if num ≤ 1 then a else a + (k : ℚ) * (b - a) / ((num : ℚ) - 1)

/-- A viewport: the four bounds kept in the `zoom_params` dictionary. -/
structure Viewport where
  xmin : ℚ
  xmax : ℚ
  ymin : ℚ
  ymax : ℚ
deriving DecidableEq

/-- The zoom state of the script: the current `zoom_params` and the
`zoom_history` list (Python list; the end of the list is the top of the
stack).  The timing bookkeeping of the script is not represented: no claim
concerns it and it never feeds back into the zoom state. -/
structure ZoomState where
  zoom_params : Viewport
  zoom_history : List Viewport
deriving DecidableEq

/-- `onselect` of the source, given the viewport the rectangle gesture
produced: `zoom_history.append(zoom_params.copy())` saves the current zoom
before `update_plot` replaces `zoom_params` with the selection. -/
def onselect (s : ZoomState) (v : Viewport) : ZoomState :=
  { zoom_params := v, zoom_history := s.zoom_history ++ [s.zoom_params] }

/-- `reset` of the source: `zoom_params = original.copy()` and
`zoom_history = [original.copy()]`. -/
def reset (orig : Viewport) : ZoomState :=
  { zoom_params := orig, zoom_history := [orig] }

/-- `zoom_back` of the source: when `len(zoom_history) > 1`, pop the last
entry and make the new last entry current; otherwise do nothing.  After the
pop the list is nonempty (its length was at least 2), so the `getD` default
is never consulted. -/
def zoom_back (s : ZoomState) : ZoomState :=
  if 1 < s.zoom_history.length then
    let h := s.zoom_history.dropLast
    { zoom_params := h.getLast?.getD s.zoom_params, zoom_history := h }
  else s

/-- One user action on the zoom state. -/
inductive Op where
  | push (v : Viewport)
  | pop
  | reset
deriving DecidableEq

/-- Apply one action as the script's handlers do. -/
def applyOp (orig : Viewport) (s : ZoomState) : Op → ZoomState
  | Op.push v => onselect s v
  | Op.pop => zoom_back s
  | Op.reset => reset orig

/-- Run a sequence of actions. -/
def runOps (orig : Viewport) (s : ZoomState) (ops : List Op) : ZoomState :=
  ops.foldl (applyOp orig) s

/-- The initial zoom state of the script: `zoom_params` is the original
viewport and `zoom_history = [original]`. -/
def initState (orig : Viewport) : ZoomState :=
  { zoom_params := orig, zoom_history := [orig] }

/-- The default original viewport of the script:
`xmin=-2.5, xmax=1, ymin=-1.5, ymax=1.5`. -/
def origV : Viewport :=
  ⟨-5/2, 1, -3/2, 3/2⟩

/-- A first zoom target, used as concrete input `A`. -/
def vA : Viewport :=
  ⟨-1, 0, 0, 1⟩

/-- A second zoom target, used as concrete input `B`. -/
def vB : Viewport :=
  ⟨-1/2, -1/4, 1/4, 1/2⟩

/-! ## Helper lemmas -/

/-- The loop never returns less than the turns already taken. -/
lemma le_mandelbrotAux (c : QComplex) :
    ∀ (fuel : ℕ) (z : QComplex) (n : ℕ), n ≤ mandelbrotAux c z n fuel := by
  intro fuel
  induction fuel with
  | zero => intro z n; simp [mandelbrotAux]
  | succ f ih =>
    intro z n
    simp only [mandelbrotAux]
    by_cases hz : 4 < z.normSq
    · simp [hz]
    · simp only [if_neg hz]
      exact le_trans (Nat.le_succ n) (ih _ (n + 1))

/-- The loop never returns more than the turns taken plus the fuel. -/
lemma mandelbrotAux_le (c : QComplex) :
    ∀ (fuel : ℕ) (z : QComplex) (n : ℕ), mandelbrotAux c z n fuel ≤ n + fuel := by
  intro fuel
  induction fuel with
  | zero => intro z n; simp [mandelbrotAux]
  | succ f ih =>
    intro z n
    simp only [mandelbrotAux]
    by_cases hz : 4 < z.normSq
    · simp [hz]
    · simp only [if_neg hz]
      calc mandelbrotAux c ((z.mul z).add c) (n + 1) f ≤ n + 1 + f := ih _ (n + 1)
        _ = n + (f + 1) := by omega

/-- The escape count is bounded by the iteration cap. -/
lemma mandelbrot_le (c : QComplex) (m : ℕ) : mandelbrot c m ≤ m := by
  have h := mandelbrotAux_le c m ⟨0, 0⟩ 0
  simpa [mandelbrot] using h

/-- Truncation law of the loop: running with less fuel yields the longer run
capped at the turns the shorter run could take. -/
lemma mandelbrotAux_min (c : QComplex) :
    ∀ (f1 : ℕ) (z : QComplex) (n f2 : ℕ), f1 ≤ f2 →
      mandelbrotAux c z n f1 = min (mandelbrotAux c z n f2) (n + f1) := by
  intro f1
  induction f1 with
  | zero =>
    intro z n f2 _
    simp only [mandelbrotAux, Nat.add_zero]
    exact (Nat.min_eq_right (le_mandelbrotAux c f2 z n)).symm
  | succ k ih =>
    intro z n f2 h
    obtain ⟨l, rfl⟩ : ∃ l, f2 = l + 1 := ⟨f2 - 1, by omega⟩
    simp only [mandelbrotAux]
    by_cases hz : 4 < z.normSq
    · simp [hz]
    · simp only [if_neg hz]
      rw [ih ((z.mul z).add c) (n + 1) l (by omega)]
      congr 1
      omega

/-- Iterating from `z = 0` with `c = 0` leaves `z` at `0`. -/
lemma zero_step : ((⟨0, 0⟩ : QComplex).mul ⟨0, 0⟩).add ⟨0, 0⟩ = ⟨0, 0⟩ := by
  simp [QComplex.mul, QComplex.add]

/-- The first loop turn from `z = 0` produces `z = c`. -/
lemma zero_step_c (c : QComplex) : ((⟨0, 0⟩ : QComplex).mul ⟨0, 0⟩).add c = c := by
  cases c
  simp [QComplex.mul, QComplex.add]

/-- With `c = 0` the loop always exhausts its fuel. -/
lemma mandelbrotAux_zero :
    ∀ (fuel n : ℕ), mandelbrotAux ⟨0, 0⟩ ⟨0, 0⟩ n fuel = n + fuel := by
  intro fuel
  induction fuel with
  | zero => intro n; simp [mandelbrotAux]
  | succ f ih =>
    intro n
    have h0 : ¬ (4 < QComplex.normSq ⟨0, 0⟩) := by norm_num [QComplex.normSq]
    simp only [mandelbrotAux, if_neg h0, zero_step]
    rw [ih (n + 1)]
    omega

/-- Row `i` of the generated grid is `compute_row` at the sampled axes. -/
lemma generate_row (xmin xmax ymin ymax : ℚ) (width height max_iter i : ℕ)
    (hi : i < height) :
    (generate_mandelbrot xmin xmax ymin ymax width height max_iter).getD i [] =
      compute_row i (linspace xmin xmax width) (linspace ymin ymax height) max_iter width := by
  simp [generate_mandelbrot, List.getD_eq_getElem?_getD, List.getElem?_map,
    List.getElem?_range, hi]

/-- Cell `j` of a computed row. -/
lemma compute_row_getD (i : ℕ) (real imag : List ℚ) (max_iter width j : ℕ)
    (hj : j < width) :
    (compute_row i real imag max_iter width).getD j 0 =
      mandelbrot ⟨real.getD j 0, imag.getD i 0⟩ max_iter := by
  simp [compute_row, List.getD_eq_getElem?_getD, List.getElem?_map,
    List.getElem?_range, hj]

/-- The embedded `linspace` agrees with the evenly spaced sample formula of
the design text at every in-range index. -/
lemma linspace_getD (a b : ℚ) :
    ∀ (num k : ℕ), k < num → (linspace a b num).getD k 0 = specSample a b num k := by
  intro num
  match num with
  | 0 => intro k hk; omega
  | 1 =>
    intro k hk
    interval_cases k
    simp [linspace, specSample]
  | (n + 2) =>
    intro k hk
    have h1 : ¬ (n + 2 ≤ 1) := by omega
    have h2 : (List.range (n + 2))[k]? = some k := List.getElem?_range hk
    simp only [linspace, specSample, if_neg h1,
      List.getD_eq_getElem?_getD, List.getElem?_map, h2, Option.map_some',
      Option.getD_some]
    push_cast
    ring

/-- `compute_row` with `width = 0` iterates over nothing and yields the empty
row. -/
lemma compute_row_width_zero (i : ℕ) (real imag : List ℚ) (max_iter : ℕ) :
    compute_row i real imag max_iter 0 = [] := rfl

/-- Every handler keeps the history nonempty. -/
lemma applyOp_hist_len (orig : Viewport) (s : ZoomState) (op : Op)
    (h : 1 ≤ s.zoom_history.length) :
    1 ≤ ((applyOp orig s op).zoom_history).length := by
  cases op with
  | push v => simp [applyOp, onselect]
  | pop =>
    simp only [applyOp, zoom_back]
    by_cases hl : 1 < s.zoom_history.length
    · simp only [if_pos hl, List.length_dropLast]
      omega
    · simpa [if_neg hl] using h
  | reset => simp [applyOp, reset]

/-- Running any action sequence from a state with nonempty history keeps the
history nonempty. -/
lemma runOps_hist_len (orig : Viewport) :
    ∀ (ops : List Op) (s : ZoomState), 1 ≤ s.zoom_history.length →
      1 ≤ (runOps orig s ops).zoom_history.length := by
  intro ops
  induction ops with
  | nil => intro s h; simpa [runOps] using h
  | cons op rest ih =>
    intro s h
    have hstep := applyOp_hist_len orig s op h
    simpa [runOps] using ih (applyOp orig s op) hstep

/-! ## Claims -/

/-- C1: for every viewport with `xmin < xmax` and `ymin < ymax`, every
resolution with `width ≥ 1` and `height ≥ 1`, and every `max_iter ≥ 1`,
cell `(i, j)` of the grid returned by `generate_mandelbrot` equals the
escape count at `real[j] + i·imag[i]`, where `real` and `imag` are the
evenly spaced inclusive sample arrays of the design text (`specSample`):
the generated grid equals the sequential row-major reference grid. -/
theorem generate_matches_reference
    (xmin xmax ymin ymax : ℚ) (width height max_iter : ℕ)
    (hx : xmin < xmax) (hy : ymin < ymax)
    (hw : 1 ≤ width) (hh : 1 ≤ height) (hm : 1 ≤ max_iter)
    (i j : ℕ) (hi : i < height) (hj : j < width) :
    ((generate_mandelbrot xmin xmax ymin ymax width height max_iter).getD i []).getD j 0 =
      mandelbrot ⟨specSample xmin xmax width j, specSample ymin ymax height i⟩ max_iter := by
  rw [generate_row _ _ _ _ _ _ _ _ hi, compute_row_getD _ _ _ _ _ _ hj,
    linspace_getD _ _ _ _ hj, linspace_getD _ _ _ _ hi]

/-- C1 witness: the reference equation at a concrete viewport, resolution,
cap and cell. -/
theorem generate_matches_reference_witness :
    (0 : ℚ) < 1 ∧ (0 : ℚ) < 1 ∧ 1 ≤ 2 ∧ 1 ≤ 2 ∧ 1 ≤ 1 ∧ 1 < 2 ∧ 1 < 2 ∧
    ((generate_mandelbrot 0 1 0 1 2 2 1).getD 1 []).getD 1 0 =
      mandelbrot ⟨specSample 0 1 2 1, specSample 0 1 2 1⟩ 1 :=
  ⟨by norm_num, by norm_num, by decide, by decide, by decide, by decide, by decide,
    generate_matches_reference 0 1 0 1 2 2 1 (by norm_num) (by norm_num)
      (by decide) (by decide) (by decide) 1 1 (by decide) (by decide)⟩

/-- C2 counterexample: `c = 3` has squared magnitude `9 > 4` (so `|c| > 2`),
yet `mandelbrot` at cap `1` does not return `0`: the escape test of the loop
examines `z` before the first update, and `z = 0` at that point. -/
theorem evaluate_outside_not_zero :
    4 < QComplex.normSq ⟨3, 0⟩ ∧ mandelbrot ⟨3, 0⟩ 1 ≠ 0 := by
  constructor
  · norm_num [QComplex.normSq]
  · norm_num [mandelbrot, mandelbrotAux, QComplex.mul, QComplex.add, QComplex.normSq]

/-- C2 amended: for every `c` with `|c| > 2` (squared magnitude above 4) and
every `max_iter ≥ 1`, `mandelbrot c max_iter = 1`: the first loop turn sees
`z = 0` and does not escape, the second sees `z = c` and returns `1`; at cap
`1` the loop exhausts its fuel and returns the cap, also `1`. -/
theorem evaluate_outside_eq_one (c : QComplex) (m : ℕ)
    (hc : 4 < c.normSq) (hm : 1 ≤ m) : mandelbrot c m = 1 := by
  obtain ⟨k, rfl⟩ : ∃ k, m = k + 1 := ⟨m - 1, by omega⟩
  have h0 : ¬ (4 < QComplex.normSq ⟨0, 0⟩) := by norm_num [QComplex.normSq]
  show mandelbrotAux c ⟨0, 0⟩ 0 (k + 1) = 1
  simp only [mandelbrotAux, if_neg h0, zero_step_c]
  cases k with
  | zero => simp [mandelbrotAux]
  | succ j => simp [mandelbrotAux, if_pos hc]

/-- C2 amended witness: `c = 3`, cap `2`. -/
theorem evaluate_outside_eq_one_witness :
    4 < QComplex.normSq ⟨3, 0⟩ ∧ 1 ≤ 2 ∧ mandelbrot ⟨3, 0⟩ 2 = 1 :=
  ⟨by norm_num [QComplex.normSq], by decide,
    evaluate_outside_eq_one ⟨3, 0⟩ 2 (by norm_num [QComplex.normSq]) (by decide)⟩

/-- C3 (divergence of the code from the claim): starting from the initial
state, zooming to `A` then to `B` (each gesture appending the pre-gesture
viewport before replacing the current one) and then pressing Back makes the
ORIGINAL viewport current, not `A`: `zoom_back` discards the stack top `A`
(believing, per its own comment, that the top is the current zoom) and
displays the entry below it. -/
theorem zoom_back_after_two_pushes :
    (zoom_back (onselect (onselect (initState origV) vA) vB)).zoom_params = origV ∧
    origV ≠ vA := by
  constructor
  · rfl
  · simp only [origV, vA, ne_eq, Viewport.mk.injEq, not_and]
    intro h
    norm_num at h

/-- C4 counterexample: `generate_mandelbrot` at the default viewport with
resolution `(0, 800)` does not fail: it returns an ordinary grid of 800
empty rows.  The source performs no parameter validation at all. -/
theorem generate_zero_width_returns_grid :
    generate_mandelbrot (-5/2) 1 (-3/2) (3/2) 0 800 100 = List.replicate 800 [] := by
  simp only [generate_mandelbrot, compute_row_width_zero]
  simp [List.map_const', List.length_range]

/-- C4 amended: `generate_mandelbrot` never raises `InvalidParameters` (the
source has no validation): with `width = 0`, for any bounds (ordered or not)
and any cap, it succeeds and returns `height` empty rows. -/
theorem generate_zero_width_no_error
    (xmin xmax ymin ymax : ℚ) (height max_iter : ℕ) :
    generate_mandelbrot xmin xmax ymin ymax 0 height max_iter =
      List.replicate height [] := by
  simp only [generate_mandelbrot, compute_row_width_zero]
  simp [List.map_const', List.length_range]

/-- C5 counterexample: `zoom_back` on a single-entry history does not fail
with any error: it is a silent no-op returning the state unchanged. -/
theorem zoom_back_singleton_concrete :
    zoom_back (initState origV) = initState origV := rfl

/-- C5 amended: with exactly one history entry, `zoom_back` leaves the state
(history and current viewport) unchanged; the source signals no
`NoPreviousViewport` error, it silently does nothing. -/
theorem zoom_back_singleton_noop (s : ZoomState)
    (h : s.zoom_history.length = 1) : zoom_back s = s := by
  simp [zoom_back, h]

/-- C5 amended witness: a concrete single-entry state. -/
theorem zoom_back_singleton_noop_witness :
    (initState vA).zoom_history.length = 1 ∧
    zoom_back (initState vA) = initState vA :=
  ⟨rfl, zoom_back_singleton_noop (initState vA) rfl⟩

/-- C6: for every valid viewport, resolution and cap, the generated grid has
exactly `height` rows, each row has exactly `width` cells, and every cell
value `n` satisfies `0 ≤ n ≤ max_iter`. -/
theorem generate_dims_and_range
    (xmin xmax ymin ymax : ℚ) (width height max_iter : ℕ)
    (hx : xmin < xmax) (hy : ymin < ymax)
    (hw : 1 ≤ width) (hh : 1 ≤ height) (hm : 1 ≤ max_iter) :
    (generate_mandelbrot xmin xmax ymin ymax width height max_iter).length = height ∧
    (∀ i : ℕ, i < height →
      ((generate_mandelbrot xmin xmax ymin ymax width height max_iter).getD i []).length
        = width) ∧
    (∀ i j : ℕ, i < height → j < width →
      0 ≤ ((generate_mandelbrot xmin xmax ymin ymax width height max_iter).getD i []).getD j 0 ∧
      ((generate_mandelbrot xmin xmax ymin ymax width height max_iter).getD i []).getD j 0
        ≤ max_iter) := by
  refine ⟨?_, ?_, ?_⟩
  · simp [generate_mandelbrot]
  · intro i hi
    rw [generate_row _ _ _ _ _ _ _ _ hi]
    simp [compute_row]
  · intro i j hi hj
    rw [generate_row _ _ _ _ _ _ _ _ hi, compute_row_getD _ _ _ _ _ _ hj]
    exact ⟨Nat.zero_le _, mandelbrot_le _ _⟩

/-- C6 witness: dimensions and a cell bound at a concrete call. -/
theorem generate_dims_and_range_witness :
    (generate_mandelbrot 0 1 0 1 2 3 1).length = 3 ∧
    ((generate_mandelbrot 0 1 0 1 2 3 1).getD 2 []).length = 2 ∧
    (0 ≤ ((generate_mandelbrot 0 1 0 1 2 3 1).getD 2 []).getD 1 0 ∧
      ((generate_mandelbrot 0 1 0 1 2 3 1).getD 2 []).getD 1 0 ≤ 1) :=
  ⟨(generate_dims_and_range 0 1 0 1 2 3 1 (by norm_num) (by norm_num)
      (by decide) (by decide) (by decide)).1,
    (generate_dims_and_range 0 1 0 1 2 3 1 (by norm_num) (by norm_num)
      (by decide) (by decide) (by decide)).2.1 2 (by decide),
    (generate_dims_and_range 0 1 0 1 2 3 1 (by norm_num) (by norm_num)
      (by decide) (by decide) (by decide)).2.2 2 1 (by decide) (by decide)⟩

/-- C7: for `c = 0` and every `max_iter ≥ 1`, the escape count is `max_iter`:
`z` stays `0` through every turn and the loop exhausts its fuel. -/
theorem evaluate_zero_eq_cap (m : ℕ) (hm : 1 ≤ m) :
    mandelbrot ⟨0, 0⟩ m = m := by
  have h := mandelbrotAux_zero m 0
  simpa [mandelbrot] using h

/-- C7 witness: cap `7`. -/
theorem evaluate_zero_eq_cap_witness :
    1 ≤ 7 ∧ mandelbrot ⟨0, 0⟩ 7 = 7 :=
  ⟨by decide, evaluate_zero_eq_cap 7 (by decide)⟩

/-- C8: starting from the initial single-entry state, every state reachable
by any sequence of push, pop and reset actions has a history of length at
least 1: the stack never empties. -/
theorem history_never_empty (orig : Viewport) (ops : List Op) :
    1 ≤ (runOps orig (initState orig) ops).zoom_history.length :=
  runOps_hist_len orig ops (initState orig) (by simp [initState])

/-- C9: for every `c` and every `max_iter ≥ 1`, the escape count is at least
`1`: the escape test of turn 0 examines `z = 0`, whose magnitude is not above
2, so the value `0` is never returned. -/
theorem evaluate_ge_one (c : QComplex) (m : ℕ) (hm : 1 ≤ m) :
    1 ≤ mandelbrot c m := by
  obtain ⟨k, rfl⟩ : ∃ k, m = k + 1 := ⟨m - 1, by omega⟩
  have h0 : ¬ (4 < QComplex.normSq ⟨0, 0⟩) := by norm_num [QComplex.normSq]
  show 1 ≤ mandelbrotAux c ⟨0, 0⟩ 0 (k + 1)
  simp only [mandelbrotAux, if_neg h0]
  exact le_mandelbrotAux c k _ 1

/-- C9 witness: a concrete point and cap. -/
theorem evaluate_ge_one_witness :
    1 ≤ 3 ∧ 1 ≤ mandelbrot ⟨1/2, 1/2⟩ 3 :=
  ⟨by decide, evaluate_ge_one ⟨1/2, 1/2⟩ 3 (by decide)⟩

/-- C10: for every `c` and all caps `1 ≤ m1 ≤ m2`, the escape count under the
smaller cap is the larger-cap count truncated at the cap:
`mandelbrot c m1 = min (mandelbrot c m2) m1`. -/
theorem evaluate_min_cap (c : QComplex) (m1 m2 : ℕ)
    (h1 : 1 ≤ m1) (h2 : m1 ≤ m2) :
    mandelbrot c m1 = min (mandelbrot c m2) m1 := by
  have h := mandelbrotAux_min c m1 ⟨0, 0⟩ 0 m2 h2
  simpa [mandelbrot] using h

/-- C10 witness: `c = 1 + i`, caps `2 ≤ 5`. -/
theorem evaluate_min_cap_witness :
    1 ≤ 2 ∧ 2 ≤ 5 ∧ mandelbrot ⟨1, 1⟩ 2 = min (mandelbrot ⟨1, 1⟩ 5) 2 :=
  ⟨by decide, by decide, evaluate_min_cap ⟨1, 1⟩ 2 5 (by decide) (by decide)⟩
